import Mathlib

/-!
Verification of the `mapstructure-to-hcl2` schema-projection generator
(`cmd/mapstructure-to-hcl2/mapstructure-to-hcl2.go`).

The development shallowly embeds the core of the generator:

* struct flattening / squashing (`getMapstructureSquashedStruct` and its
  helpers `uniqueFields`, `squashStructs`, `addFieldToStruct`, `flattenNamed`,
  `makePointer`),
* accessor synthesis (`ToSnakeCase`, `addCtyTagToStruct`, `uniqueTags`),
* decode-spec lowering (`outputHCL2SpecField`, `outputStructHCL2SpecBody`,
  `basicKindToCtyType`).

Modelling decisions, each matching the Go source:

* Go struct tags are modelled as already parsed (`structtag` library values):
  a list of entries, each with a key, a name, and options.  `structtag.Get`
  returns the first entry with the given key; `structtag.Set` replaces the
  first entry with the same key or appends.
* `go/types` types are the closed inductive `GoType`.  A named type stores
  its name and its underlying type; in `go/types` the stored underlying type
  is never itself named, and `Underlying()` on every non-named type is the
  identity, which the single-step `GoType.underlying` mirrors.
* The generator's `log.Printf` diagnostics are modelled as an explicit list
  of message strings returned next to each result (a value, not a side
  channel), so that silent and diagnosed skips can be told apart.
* `strings.ToLower` is modelled on the ASCII range via `Char.toLower`
  (the regular expressions of `ToSnakeCase` only involve ASCII classes).
* Package bookkeeping (`field.Pkg()`, import tracking) and textual source
  emission are not modelled; they do not affect field names, types, tags or
  the produced spec tree.
-/

/-! ## Struct tags (parsed `structtag` values) -/

/-- One parsed struct-tag entry, as produced by the `structtag` library:
`key:"name,opt1,opt2"`. -/
structure TagEntry where
  key : String
  name : String
  options : List String
deriving Repr, DecidableEq

/-- A parsed struct tag: the ordered list of its entries. -/
abbrev Tag := List TagEntry

/-- Model of `structtag.Tags.Get`: the first entry with the given key
(`none` corresponds to the error return). -/
def tagGet (t : Tag) (k : String) : Option TagEntry :=
  t.find? (fun e => e.key == k)

/-- Model of `structtag.Tags.Set`: replace the first entry with the same key,
or append the entry at the end. -/
def tagSet : Tag → TagEntry → Tag
  | [], e => [e]
  | x :: xs, e => if x.key == e.key then e :: xs else x :: tagSet xs e

/-! ## `go/types` kinds and `cty` types -/

/-- The `go/types.BasicKind` enumeration (`uptr` is `types.Uintptr` and
`unsafeptrKind` is `types.UnsafePointer`, renamed only to satisfy Lean naming
constraints). -/
inductive BasicKind where
  | invalid | bool | int | int8 | int16 | int32 | int64
  | uint | uint8 | uint16 | uint32 | uint64 | uptr
  | float32 | float64 | complex64 | complex128
  | string | unsafeptrKind
  | untypedBool | untypedInt | untypedRune | untypedFloat
  | untypedComplex | untypedString | untypedNil
deriving Repr, DecidableEq

/-- The fragment of `cty.Type` the generator emits. -/
inductive CtyType where
  | bool
  | number
  | string
  | list : CtyType → CtyType
deriving Repr, DecidableEq

/-- Model of `basicKindToCtyType`: the switch over `types.BasicKind`.
The `types.Invalid` arm and the logging default arm both return
`cty.String`. -/
def basicKindToCtyType : BasicKind → CtyType
  | .bool => .bool
  | .string => .string
  | .int | .int8 | .int16 | .int32 | .int64
  | .uint | .uint8 | .uint16 | .uint32 | .uint64
  | .float32 | .float64 | .complex64 | .complex128 => .number
  | .invalid => .string
  | _ => .string

/-! ## The type universe: `go/types` types, struct fields and tags -/

mutual
/-- The shapes of `go/types` types the generator dispatches on:
basic kinds, pointers, slices, maps, named types (name plus stored
underlying type), struct types, and function signatures. -/
inductive GoType : Type where
  | basic : BasicKind → GoType
  | pointer : GoType → GoType
  | slice : GoType → GoType
  | mapT : GoType → GoType → GoType
  | named : String → GoType → GoType
  | structT : FieldList → GoType
  | signature : GoType
deriving Repr, DecidableEq

/-- The field list of a `types.Struct` (a dedicated list type keeps the
mutual induction with `GoType` simple). -/
inductive FieldList : Type where
  | fnil : FieldList
  | fcons : GoField → FieldList → FieldList
deriving Repr, DecidableEq

/-- One struct field: name, exported flag, type, and raw (parsed) tag.
This merges `types.Var` with the parallel tag array of `types.Struct`. -/
inductive GoField : Type where
  | mk : (name : String) → (isExp : Bool) → (type : GoType) → (tag : Tag) → GoField
deriving Repr, DecidableEq
end

def GoField.name : GoField → String
  | .mk n _ _ _ => n

def GoField.isExp : GoField → Bool
  | .mk _ e _ _ => e

def GoField.type : GoField → GoType
  | .mk _ _ t _ => t

def GoField.tag : GoField → Tag
  | .mk _ _ _ tg => tg

/-- Model of `types.Type.Underlying()`: one step through a named type,
identity on everything else (in `go/types` the underlying type stored in a
named type is never itself named, so one step always resolves fully). -/
def GoType.underlying : GoType → GoType
  | .named _ u => u
  | t => t

/-- Whether `Underlying()` of this type is a struct type. -/
def underlyingIsStruct (t : GoType) : Bool :=
  match t.underlying with
  | .structT _ => true
  | _ => false

/-- Appending field lists (used only to state theorems about fields in
arbitrary positions of a struct). -/
def FieldList.append : FieldList → FieldList → FieldList
  | .fnil, b => b
  | .fcons f rest, b => .fcons f (rest.append b)

/-! ## `ToSnakeCase` -/

/-- The character class `[A-Z]` of the `ToSnakeCase` regular expressions. -/
def isAsciiUpper (c : Char) : Bool := 65 ≤ c.toNat && c.toNat ≤ 90

/-- The character class `[a-z]` of the `ToSnakeCase` regular expressions. -/
def isAsciiLower (c : Char) : Bool := 97 ≤ c.toNat && c.toNat ≤ 122

/-- The character class `[a-z0-9]` of the second `ToSnakeCase` regular
expression. -/
def isAsciiLowerOrDigit (c : Char) : Bool :=
  isAsciiLower c || (48 ≤ c.toNat && c.toNat ≤ 57)

/-- Model of `matchFirstCap.ReplaceAllString(str, "${1}_${2}")` with
`matchFirstCap = (.)([A-Z][a-z]+)`: scan left to right; at the first
position where some character other than a newline is followed by an
uppercase letter and at least one lowercase letter, insert `_` between the
two groups; the `[a-z]+` run is greedy and the scan resumes after the
(non-overlapping) match. -/
def matchFirstCapAux : List Char → List Char
  | [] => []
  | [c] => [c]
  | [c, d] => [c, d]
  | c :: d :: e :: rest =>
    if c ≠ '\n' && isAsciiUpper d && isAsciiLower e then
      c :: '_' :: d :: e :: (rest.takeWhile isAsciiLower ++
        matchFirstCapAux (rest.dropWhile isAsciiLower))
    else
      c :: matchFirstCapAux (d :: e :: rest)
termination_by l => l.length
decreasing_by
  · have h := ((List.dropWhile_suffix isAsciiLower (l := rest)).sublist).length_le
    simp only [List.length_cons]
    omega
  · simp

/-- Model of `matchAllCap.ReplaceAllString(snake, "${1}_${2}")` with
`matchAllCap = ([a-z0-9])([A-Z])`: insert `_` between every lowercase letter
or digit and a following uppercase letter (matches cannot overlap because an
uppercase letter is not in `[a-z0-9]`). -/
def matchAllCapAux : List Char → List Char
  | c :: d :: rest =>
    if isAsciiLowerOrDigit c && isAsciiUpper d then
      c :: '_' :: d :: matchAllCapAux rest
    else
      c :: matchAllCapAux (d :: rest)
  | l => l

/-- Model of `ToSnakeCase`: both regex passes, then `strings.ToLower`
(ASCII case folding, which is all the generated identifiers use). -/
def ToSnakeCase (s : String) : String :=
  String.mk ((matchAllCapAux (matchFirstCapAux s.data)).map Char.toLower)

/-! ## Duplicate dropping (`uniqueFields`, `uniqueTags`) -/

/-- Loop of `uniqueFields`: `seen` is the `fieldNames` set; a field whose
name was already seen is dropped and its `log.Printf` message recorded. -/
def uniqueFieldsAux : List GoField → List String → List GoField × List String
  | [], _ => ([], [])
  | f :: rest, seen =>
    if seen.contains f.name then
      let r := uniqueFieldsAux rest seen
      (r.1, ("skipping duplicate " ++ f.name ++ " field") :: r.2)
    else
      let r := uniqueFieldsAux rest (f.name :: seen)
      (f :: r.1, r.2)

/-- Model of `uniqueFields`: keep the first field with each name, drop and
diagnose every later one. -/
def uniqueFields (fields : List GoField) : List GoField × List String :=
  uniqueFieldsAux fields []

/-- Loop of `uniqueTags`: dedup keyed on the name of the `tagName` tag entry;
a field without that tag entry is always kept. -/
def uniqueTagsAux (tagName : String) :
    List GoField → List String → List GoField × List String
  | [], _ => ([], [])
  | f :: rest, seen =>
    match tagGet f.tag tagName with
    | some h =>
      if seen.contains h.name then
        let r := uniqueTagsAux tagName rest seen
        (r.1, ("skipping field " ++ f.name ++ " ( duplicate `" ++ h.name ++
          "` " ++ tagName ++ " tag  )") :: r.2)
      else
        let r := uniqueTagsAux tagName rest (h.name :: seen)
        (f :: r.1, r.2)
    | none =>
      let r := uniqueTagsAux tagName rest seen
      (f :: r.1, r.2)

/-- Model of `uniqueTags`. -/
def uniqueTags (tagName : String) (fields : List GoField) :
    List GoField × List String :=
  uniqueTagsAux tagName fields []

/-! ## Accessor synthesis (`addCtyTagToStruct`) -/

/-- The per-field accessor computation inside `addCtyTagToStruct`:
`ToSnakeCase(field.Name())`, overridden by a present, non-empty
`mapstructure` tag name. -/
def ctyAccessor (f : GoField) : String :=
  match tagGet f.tag "mapstructure" with
  | some ms => if ms.name ≠ "" then ms.name else ToSnakeCase f.name
  | none => ToSnakeCase f.name

/-- Model of `addCtyTagToStruct`: set a `cty` tag entry carrying the accessor
on every field, then drop fields with duplicate `cty` tag names. -/
def addCtyTagToStruct (fields : List GoField) : List GoField × List String :=
  uniqueTags "cty" (fields.map (fun f =>
    .mk f.name f.isExp f.type (tagSet f.tag ⟨"cty", ctyAccessor f, []⟩)))

/-! ## Struct flattening (`getMapstructureSquashedStruct`) -/

/-- Model of `flattenNamed`: rename a named type to `"Flat" + name`, keeping
the (struct) underlying type. -/
def flattenNamed (n : String) (str : FieldList) : GoType :=
  .named ("Flat" ++ n) (.structT str)

/-- Model of `makePointer`: wrap the field's type in a pointer. -/
def makePointer (f : GoField) : GoField :=
  .mk f.name f.isExp (.pointer f.type) f.tag

/-- Model of `addFieldToStruct`: append one field, dropping duplicates by
field name. -/
def addFieldToStruct (s : List GoField) (f : GoField) :
    List GoField × List String :=
  uniqueFields (s ++ [f])

/-- Model of `squashStructs`: concatenate two field lists, dropping
duplicates by field name. -/
def squashStructs (a b : List GoField) : List GoField × List String :=
  uniqueFields (a ++ b)

/-- The non-squash normalization of one field inside
`getMapstructureSquashedStruct`: unwrap one pointer; apply the named-type
override table (`time.Duration`, `config.Trilean`,
`powershell.ExecutionPolicy`); replace a named struct by a pointer to its
`Flat` renaming; replace the element of a slice of named structs by its
`Flat` renaming; wrap basic types in a pointer. -/
def normalizeField (f : GoField) : GoField :=
  let f1 : GoField :=
    match f.type with
    | .pointer e => .mk f.name f.isExp e f.tag
    | _ => f
  match f1.type with
  | .named n u =>
    let fo : GoField :=
      if n = "time.Duration" then
        .mk f1.name f1.isExp (.pointer (.basic .string)) f1.tag
      else if n = "github.com/hashicorp/packer/helper/config.Trilean" then
        .mk f1.name f1.isExp (.pointer (.basic .bool)) f1.tag
      else if n = "github.com/hashicorp/packer/provisioner/powershell.ExecutionPolicy" then
        .mk f1.name f1.isExp (.pointer (.basic .string)) f1.tag
      else f1
    let fstr : GoField :=
      match u with
      | .structT str => makePointer (.mk f1.name f1.isExp (flattenNamed n str) f1.tag)
      | _ => fo
    match u with
    | .slice (.named m (.structT str2)) =>
      .mk f1.name f1.isExp (.slice (flattenNamed m str2)) f1.tag
    | _ => fstr
  | .slice (.named m (.structT str)) =>
    .mk f1.name f1.isExp (.slice (flattenNamed m str)) f1.tag
  | .basic _ => makePointer f1
  | _ => f1

mutual
/-- The loop of `getMapstructureSquashedStruct`: process each field in
declaration order, threading the accumulated result struct and the
diagnostics list. -/
def flattenAux : FieldList → List GoField → List String →
    List GoField × List String
  | .fnil, acc, diags => (acc, diags)
  | .fcons f rest, acc, diags =>
    let r := flattenStep f acc diags
    flattenAux rest r.1 r.2

/-- One iteration of the `getMapstructureSquashedStruct` loop: skip
unexported fields and function-typed fields; inline the recursive flattening
of a squash-tagged field whose underlying type is a struct (skipping the
field silently otherwise); normalize and append every other field. -/
def flattenStep (f : GoField) (acc : List GoField) (diags : List String) :
    List GoField × List String :=
  if !f.isExp then (acc, diags)
  else if f.type matches .signature then (acc, diags)
  else
    match tagGet f.tag "mapstructure" with
    | some ms =>
      if ms.options.contains "squash" then
        match f with
        | .mk _ _ (.named _ (.structT inner)) _ =>
          let r := flattenAux inner [] []
          let m := squashStructs acc r.1
          (m.1, diags ++ r.2 ++ m.2)
        | .mk _ _ (.structT inner) _ =>
          let r := flattenAux inner [] []
          let m := squashStructs acc r.1
          (m.1, diags ++ r.2 ++ m.2)
        | _ => (acc, diags)
      else
        let m := addFieldToStruct acc (normalizeField f)
        (m.1, diags ++ m.2)
    | none =>
      let m := addFieldToStruct acc (normalizeField f)
      (m.1, diags ++ m.2)
end

/-- Model of `getMapstructureSquashedStruct`: the flattened struct plus the
diagnostics the run would log. -/
def getMapstructureSquashedStruct (b : FieldList) : List GoField × List String :=
  flattenAux b [] []

/-! ## Decode-spec lowering (`outputHCL2SpecField`) -/

/-- The `hcldec` specification tree the generator emits.  `blockSpec` and
`blockObjectSpec` carry the textual reference to the sibling artifact whose
`HCL2Spec()` is spliced in (`hcldec.ObjectSpec((*T)(nil).HCL2Spec())`);
`selfDefinedSpec` is the `(&T{}).HCL2Spec()` escape; `todoAttrSpec` is the
defensive default arm (an `AttrSpec` plus a TODO comment). -/
inductive HclSpec where
  | attrSpec (name : String) (type : CtyType) (required : Bool)
  | blockAttrsSpec (typeName : String) (elementType : CtyType) (required : Bool)
  | blockListSpec (typeName : String) (nested : HclSpec)
  | blockSpec (typeName : String) (nestedRef : String)
  | blockObjectSpec (typeName : String) (nestedRef : String)
  | selfDefinedSpec (typeRef : String)
  | todoAttrSpec (name : String) (type : CtyType) (required : Bool)
deriving Repr, DecidableEq

/-- The `self-defined` check at the top of `outputHCL2SpecField`:
`tag.Get("")` has the option `self-defined`. -/
def isSelfDefined (tag : Tag) : Bool :=
  match tagGet tag "" with
  | some m => m.options.contains "self-defined"
  | none => false

/-- The name a type reference renders as (`types.Type.String()`); only named
types are ever referenced by the spec nodes this model distinguishes. -/
def typeString : GoType → String
  | .named n _ => n
  | _ => ""

/-- Model of `outputHCL2SpecField`: the type-directed lowering of one
flattened field to an `hcldec` spec node.  Pointers are transparent; basic
kinds become `AttrSpec`; maps become `BlockAttrsSpec` with `cty.String`
elements; slices become list attributes or `BlockListSpec` depending on the
(once pointer-unwrapped) element; named structs become `BlockSpec` references
to the sibling `Flat` type; other named types recurse on their underlying
type under the type's own name; anonymous structs become `BlockObjectSpec`;
anything else falls back to a Bool `AttrSpec` with a TODO marker.  In
`go/types`, `Underlying()` of the non-named element types the slice default
arms pass on is the element itself, which the recursion mirrors. -/
def outputHCL2SpecField (accessor : String) (fieldType : GoType) (tag : Tag) :
    HclSpec :=
  if isSelfDefined tag then .selfDefinedSpec (typeString fieldType)
  else
    match fieldType with
    | .pointer e => outputHCL2SpecField accessor e tag
    | .basic k => .attrSpec accessor (basicKindToCtyType k) false
    | .mapT _ _ => .blockAttrsSpec accessor .string false
    | .slice (.pointer (.basic k)) =>
      .attrSpec accessor (.list (basicKindToCtyType k)) false
    | .slice (.pointer e@(.named _ _)) =>
      .blockListSpec accessor (outputHCL2SpecField accessor e tag)
    | .slice (.pointer e@(.slice _)) =>
      .blockListSpec accessor (outputHCL2SpecField accessor e tag)
    | .slice (.pointer e) => outputHCL2SpecField accessor e tag
    | .slice (.basic k) =>
      .attrSpec accessor (.list (basicKindToCtyType k)) false
    | .slice e@(.named _ _) =>
      .blockListSpec accessor (outputHCL2SpecField accessor e tag)
    | .slice e@(.slice _) =>
      .blockListSpec accessor (outputHCL2SpecField accessor e tag)
    | .slice e => outputHCL2SpecField accessor e tag
    | .named n (.structT _) => .blockSpec accessor n
    | .named n u => outputHCL2SpecField n u tag
    | .structT _ => .blockObjectSpec accessor (typeString fieldType)
    | .signature => .todoAttrSpec accessor (basicKindToCtyType .bool) false

/-- Model of `outputStructHCL2SpecBody`: one map entry per field, keyed by
the field's `cty` tag name (always present on the fields the pipeline feeds
in), valued by the lowering of the field's type. -/
def outputStructHCL2SpecBody (fields : List GoField) : List (String × HclSpec) :=
  fields.map (fun f =>
    let cname :=
      match tagGet f.tag "cty" with
      | some t => t.name
      | none => ""
    (cname, outputHCL2SpecField cname f.type f.tag))

/-! ## The per-root pipeline (`main`'s per-type processing) -/

/-- The flattened, `cty`-tagged struct generated for one root
(`getMapstructureSquashedStruct` then `addCtyTagToStruct`, as in `main`). -/
def flatStructOf (b : FieldList) : List GoField :=
  (addCtyTagToStruct (getMapstructureSquashedStruct b).1).1

/-- The `HCL2Spec()` body generated for one root. -/
def hcl2SpecOfStruct (b : FieldList) : List (String × HclSpec) :=
  outputStructHCL2SpecBody (flatStructOf b)

/-! ## Predicates used by the claims -/

/-- Every `AttrSpec`/`BlockAttrsSpec` node in a spec tree (including the TODO
default nodes and nodes nested inside `BlockListSpec`) has `Required: false`. -/
def requiredAlwaysFalse : HclSpec → Bool
  | .attrSpec _ _ r => !r
  | .blockAttrsSpec _ _ r => !r
  | .todoAttrSpec _ _ r => !r
  | .blockListSpec _ nested => requiredAlwaysFalse nested
  | .blockSpec _ _ => true
  | .blockObjectSpec _ _ => true
  | .selfDefinedSpec _ => true

/-- Dedup by field name as the specification words it: the first field with
a given name is kept, every later field with the same name is dropped.
(Stated from the spec to compare against `uniqueFields`.) -/
def specFirstWinsByName : List GoField → List GoField
  | [] => []
  | f :: rest =>
    f :: specFirstWinsByName (rest.filter (fun g => g.name != f.name))
termination_by l => l.length
decreasing_by
  have h := List.length_filter_le (fun g => g.name != f.name) rest
  simp only [List.length_cons]
  omega

/-- Whether a field's `tagName` tag entry does not claim the accessor
`hname` (fields without the entry claim nothing). -/
def tagNameDiffers (tagName hname : String) (g : GoField) : Bool :=
  match tagGet g.tag tagName with
  | some h2 => h2.name != hname
  | none => true

/-- Dedup by accessor (the name of the `tagName` tag entry) as the
specification words it: the first field claiming a given accessor is kept,
every later claimant is dropped; fields without the tag entry are kept.
(Stated from the spec to compare against `uniqueTags`.) -/
def specFirstWinsByTag (tagName : String) : List GoField → List GoField
  | [] => []
  | f :: rest =>
    match tagGet f.tag tagName with
    | some h =>
      f :: specFirstWinsByTag tagName
        (rest.filter (tagNameDiffers tagName h.name))
    | none => f :: specFirstWinsByTag tagName rest
termination_by l => l.length
decreasing_by
  · have hf := List.length_filter_le (tagNameDiffers tagName h.name) rest
    simp only [List.length_cons]
    omega
  · simp

/-- Whether a field's name is not in the `seen` set (the loop invariant
state of `uniqueFields`). -/
def nameNotSeen (seen : List String) (g : GoField) : Bool :=
  !(seen.contains g.name)

/-- Whether a field's `tagName` tag entry name is not in the `seen` set
(the loop invariant state of `uniqueTags`); untagged fields pass. -/
def tagNameNotSeen (tagName : String) (seen : List String) (g : GoField) : Bool :=
  match tagGet g.tag tagName with
  | some h => !(seen.contains h.name)
  | none => true

/-- The accessor names (names of the `tagName` tag entries) carried by a
field list, in order. -/
def accessorsOf (tagName : String) (l : List GoField) : List String :=
  l.filterMap (fun f => (tagGet f.tag tagName).map TagEntry.name)

/-! ## Concrete scenarios from the specification -/

/-- Scenario A: the embedded struct, with one field `Debug bool`. -/
def debugStruct : FieldList :=
  .fcons (.mk "Debug" true (.basic .bool) []) .fnil

/-- Scenario A root: `Name string`, `Count int`, and a squash-tagged embedded
struct with field `Debug bool`. -/
def scenarioARoot : FieldList :=
  .fcons (.mk "Name" true (.basic .string) []) (
  .fcons (.mk "Count" true (.basic .int) []) (
  .fcons (.mk "Common" true (.named "CommonConfig" (.structT debugStruct))
    [⟨"mapstructure", "", ["squash"]⟩]) .fnil))

/-- Scenario B: the element struct `Rule` with one field `Path string`. -/
def ruleStruct : FieldList :=
  .fcons (.mk "Path" true (.basic .string) []) .fnil

/-- Scenario B root: one field `Rules []Rule`. -/
def scenarioBRoot : FieldList :=
  .fcons (.mk "Rules" true (.slice (.named "Rule" (.structT ruleStruct))) [])
    .fnil

/-- Scenario C: a field `Command` tagged `mapstructure:"cmd"`. -/
def scenarioCField : GoField :=
  .mk "Command" true (.basic .string) [⟨"mapstructure", "cmd", []⟩]

-- simp evaluation set for concrete runs of the pipeline
/-- C1: flattening a root with scalar fields `Name string`, `Count int` and a
squash-tagged embedded struct with field `Debug bool` discards the squash
field, inlines its recursively flattened children in place, and wraps every
scalar leaf in exactly one pointer, giving exactly three fields of types
`*string`, `*int`, `*bool` with accessors `name`, `count`, `debug`;
in general, one loop step on an exported squash-tagged named-struct field
merges exactly the recursively flattened children into the accumulator, and
normalization of a scalar field wraps its type in exactly one pointer. -/
theorem scenarioA_flat_projection :
    flatStructOf scenarioARoot =
      [.mk "Name" true (.pointer (.basic .string)) [⟨"cty", "name", []⟩],
       .mk "Count" true (.pointer (.basic .int)) [⟨"cty", "count", []⟩],
       .mk "Debug" true (.pointer (.basic .bool)) [⟨"cty", "debug", []⟩]] ∧
    (∀ (n m : String) (inner : FieldList) (tg : Tag) (ms : TagEntry)
       (acc : List GoField) (diags : List String),
      tagGet tg "mapstructure" = some ms →
      ms.options.contains "squash" = true →
      flattenStep (.mk n true (.named m (.structT inner)) tg) acc diags =
        ((squashStructs acc (flattenAux inner [] []).1).1,
         diags ++ (flattenAux inner [] []).2 ++
           (squashStructs acc (flattenAux inner [] []).1).2)) ∧
    (∀ (n : String) (ex : Bool) (k : BasicKind) (tg : Tag),
      normalizeField (.mk n ex (.basic k) tg) =
        .mk n ex (.pointer (.basic k)) tg) := by
  refine ⟨?_, ?_, ?_⟩
  · simp [flatStructOf, getMapstructureSquashedStruct, flattenAux, flattenStep,
      addCtyTagToStruct, uniqueTags, uniqueTagsAux, uniqueFields, uniqueFieldsAux,
      addFieldToStruct, squashStructs, normalizeField, makePointer, flattenNamed,
      tagGet, tagSet, ctyAccessor, ToSnakeCase, matchFirstCapAux, matchAllCapAux,
      isAsciiUpper, isAsciiLower, isAsciiLowerOrDigit, scenarioARoot, debugStruct,
      GoField.name, GoField.isExp, GoField.type, GoField.tag]
  · intro n m inner tg ms acc diags h1 h2
    have h2m : "squash" ∈ ms.options := by simpa using h2
    simp [flattenStep, GoField.isExp, GoField.type, GoField.tag, h1, h2m]
  · intro n ex k tg
    simp [normalizeField, makePointer, GoField.name, GoField.isExp,
      GoField.type, GoField.tag]

theorem scenarioA_flat_projection_witness :
    tagGet [TagEntry.mk "mapstructure" "" ["squash"]] "mapstructure" =
      some ⟨"mapstructure", "", ["squash"]⟩ ∧
    (["squash"].contains "squash") = true ∧
    flattenStep (.mk "Common" true
        (.named "CommonConfig" (.structT debugStruct))
        [⟨"mapstructure", "", ["squash"]⟩]) [] [] =
      ((squashStructs [] (flattenAux debugStruct [] []).1).1,
       [] ++ (flattenAux debugStruct [] []).2 ++
         (squashStructs [] (flattenAux debugStruct [] []).1).2) ∧
    normalizeField (.mk "Count" true (.basic .int) []) =
      .mk "Count" true (.pointer (.basic .int)) [] := by
  refine ⟨by decide, by decide, ?_, ?_⟩
  · exact scenarioA_flat_projection.2.1 "Common" "CommonConfig" debugStruct
      [⟨"mapstructure", "", ["squash"]⟩] ⟨"mapstructure", "", ["squash"]⟩ [] []
      (by decide) (by decide)
  · exact scenarioA_flat_projection.2.2 "Count" true .int []

/-- C4 (counterexample): on the acronym-then-word name `ABCDWord` the
accessor transform does not return `a_b_c_d_word` (consecutive capitals of
the acronym are never separated from each other). -/
theorem toSnakeCase_acronym_counterexample :
    ToSnakeCase "ABCDWord" ≠ "a_b_c_d_word" := by
  have h : ToSnakeCase "ABCDWord" = "abcd_word" := by
    simp [ToSnakeCase, matchFirstCapAux, matchAllCapAux, isAsciiUpper,
      isAsciiLower, isAsciiLowerOrDigit]
  rw [h]
  decide

/-- C4 (amended): on `ABCDWord` the transform returns `abcd_word`: pass 1
inserts one separator between the acronym's last capital and the capitalized
word (`ABCD_Word`), pass 2 finds no lowercase-or-digit-to-uppercase hump,
and the result is lowercased. -/
theorem toSnakeCase_acronym_actual :
    ToSnakeCase "ABCDWord" = "abcd_word" := by
  simp [ToSnakeCase, matchFirstCapAux, matchAllCapAux, isAsciiUpper,
    isAsciiLower, isAsciiLowerOrDigit]

/-- C9: the scalar-kind-to-cty-type mapping is total (it is a total Lean
function) and maps bool to Bool, string to String, every integer width and
signedness plus floating point and complex kinds to Number, and every other
kind - the unresolved `Invalid` kind and all unrecognized kinds
(`Uintptr`, `UnsafePointer`, the untyped kinds) - to String, never failing.
The exhaustive enumeration below covers every `types.BasicKind`
constructor. -/
theorem basicKind_mapping_table :
    basicKindToCtyType .bool = .bool ∧
    basicKindToCtyType .string = .string ∧
    basicKindToCtyType .int = .number ∧
    basicKindToCtyType .int8 = .number ∧
    basicKindToCtyType .int16 = .number ∧
    basicKindToCtyType .int32 = .number ∧
    basicKindToCtyType .int64 = .number ∧
    basicKindToCtyType .uint = .number ∧
    basicKindToCtyType .uint8 = .number ∧
    basicKindToCtyType .uint16 = .number ∧
    basicKindToCtyType .uint32 = .number ∧
    basicKindToCtyType .uint64 = .number ∧
    basicKindToCtyType .float32 = .number ∧
    basicKindToCtyType .float64 = .number ∧
    basicKindToCtyType .complex64 = .number ∧
    basicKindToCtyType .complex128 = .number ∧
    basicKindToCtyType .invalid = .string ∧
    basicKindToCtyType .uptr = .string ∧
    basicKindToCtyType .unsafeptrKind = .string ∧
    basicKindToCtyType .untypedBool = .string ∧
    basicKindToCtyType .untypedInt = .string ∧
    basicKindToCtyType .untypedRune = .string ∧
    basicKindToCtyType .untypedFloat = .string ∧
    basicKindToCtyType .untypedComplex = .string ∧
    basicKindToCtyType .untypedString = .string ∧
    basicKindToCtyType .untypedNil = .string := by
  decide

/-- C6: a mapping-shaped field lowers to a `BlockAttrsSpec` whose element
type is `cty.String` and whose `Required` is false, for every key type and
every value type `V`. -/
theorem mapping_lowers_to_string_attrs :
    ∀ (accessor : String) (k v : GoType) (tg : Tag),
      isSelfDefined tg = false →
      outputHCL2SpecField accessor (.mapT k v) tg =
        .blockAttrsSpec accessor .string false := by
  intro accessor k v tg h
  simp [outputHCL2SpecField, h]

theorem mapping_lowers_to_string_attrs_witness :
    isSelfDefined [] = false ∧
    outputHCL2SpecField "env" (.mapT (.basic .string) (.basic .int)) [] =
      .blockAttrsSpec "env" .string false ∧
    CtyType.string ≠ CtyType.number :=
  ⟨by decide,
   mapping_lowers_to_string_attrs "env" (.basic .string) (.basic .int) [] (by decide),
   by decide⟩

/-- C5: the root with field `Rules []Rule` (where `Rule` has field
`Path string`) generates the spec entry `rules` mapped to a `BlockListSpec`
whose nested spec is the `BlockSpec` referencing the sibling `FlatRule`
artifact; the sibling's own generated spec set contains exactly the
`AttrSpec` for accessor `path`; and in general every slice-of-named-struct
field lowers to a `BlockListSpec` carrying the field's accessor with that
nested `BlockSpec`. -/
theorem scenarioB_blocklist_lowering :
    hcl2SpecOfStruct scenarioBRoot =
      [("rules", .blockListSpec "rules" (.blockSpec "rules" "FlatRule"))] ∧
    hcl2SpecOfStruct ruleStruct =
      [("path", .attrSpec "path" .string false)] ∧
    ∀ (accessor m : String) (str : FieldList) (tg : Tag),
      isSelfDefined tg = false →
      outputHCL2SpecField accessor (.slice (.named m (.structT str))) tg =
        .blockListSpec accessor (.blockSpec accessor m) := by
  refine ⟨?_, ?_, ?_⟩
  · simp [hcl2SpecOfStruct, flatStructOf, getMapstructureSquashedStruct,
      flattenAux, flattenStep, addCtyTagToStruct, uniqueTags, uniqueTagsAux,
      uniqueFields, uniqueFieldsAux, addFieldToStruct, squashStructs,
      normalizeField, makePointer, flattenNamed, tagGet, tagSet, ctyAccessor,
      ToSnakeCase, matchFirstCapAux, matchAllCapAux, isAsciiUpper, isAsciiLower,
      isAsciiLowerOrDigit, scenarioBRoot, ruleStruct, outputStructHCL2SpecBody,
      outputHCL2SpecField, isSelfDefined, typeString,
      GoField.name, GoField.isExp, GoField.type, GoField.tag]
  · simp [hcl2SpecOfStruct, flatStructOf, getMapstructureSquashedStruct,
      flattenAux, flattenStep, addCtyTagToStruct, uniqueTags, uniqueTagsAux,
      uniqueFields, uniqueFieldsAux, addFieldToStruct, squashStructs,
      normalizeField, makePointer, flattenNamed, tagGet, tagSet, ctyAccessor,
      ToSnakeCase, matchFirstCapAux, matchAllCapAux, isAsciiUpper, isAsciiLower,
      isAsciiLowerOrDigit, ruleStruct, outputStructHCL2SpecBody,
      outputHCL2SpecField, isSelfDefined, typeString, basicKindToCtyType,
      GoField.name, GoField.isExp, GoField.type, GoField.tag]
  · intro accessor m str tg h
    simp [outputHCL2SpecField, h]

theorem scenarioB_blocklist_lowering_witness :
    isSelfDefined [] = false ∧
    outputHCL2SpecField "rules" (.slice (.named "FlatRule" (.structT ruleStruct))) [] =
      .blockListSpec "rules" (.blockSpec "rules" "FlatRule") :=
  ⟨by decide,
   (scenarioB_blocklist_lowering.2.2) "rules" "FlatRule" ruleStruct [] (by decide)⟩

/-- C3: every `AttrSpec` and `BlockAttrsSpec` node produced by the lowering
compiler - including the TODO default nodes and nodes nested inside
`BlockListSpec` - has `Required: false`, for every accessor, every field
type and every tag; hence every node of every generated SpecSet body
satisfies the invariant (`BlockSpec`/`BlockObjectSpec` nest only references
to sibling spec sets, each of which is itself such a body). -/
theorem required_always_false :
    (∀ (accessor : String) (t : GoType) (tg : Tag),
      requiredAlwaysFalse (outputHCL2SpecField accessor t tg) = true) ∧
    (∀ (fields : List GoField),
      (outputStructHCL2SpecBody fields).all
        (fun p => requiredAlwaysFalse p.2) = true) := by
  have core : ∀ (accessor : String) (t : GoType) (tg : Tag),
      requiredAlwaysFalse (outputHCL2SpecField accessor t tg) = true := by
    intro accessor t tg
    induction accessor, t, tg using outputHCL2SpecField.induct <;>
      (rw [outputHCL2SpecField.eq_def]; simp_all [requiredAlwaysFalse])
  refine ⟨core, ?_⟩
  intro fields
  rw [List.all_eq_true]
  intro p hp
  simp only [outputStructHCL2SpecBody, List.mem_map] at hp
  obtain ⟨f, _, rfl⟩ := hp
  exact core _ _ _

theorem uniqueTags_singleton (tagName : String) (g : GoField) :
    uniqueTags tagName [g] = ([g], []) := by
  cases htg : tagGet g.tag tagName <;>
    simp [uniqueTags, uniqueTagsAux, htg]

/-- C7: a present, non-empty explicit `mapstructure` name is used verbatim
as the accessor recorded in the `cty` tag, instead of the case-folded
derivation from the field name. -/
theorem explicit_external_name_wins :
    ∀ (f : GoField) (ms : TagEntry),
      tagGet f.tag "mapstructure" = some ms →
      ms.name ≠ "" →
      ctyAccessor f = ms.name ∧
      (addCtyTagToStruct [f]).1 =
        [.mk f.name f.isExp f.type (tagSet f.tag ⟨"cty", ms.name, []⟩)] := by
  intro f ms h1 h2
  have hacc : ctyAccessor f = ms.name := by
    simp [ctyAccessor, h1, h2]
  refine ⟨hacc, ?_⟩
  simp [addCtyTagToStruct, hacc, uniqueTags_singleton]

theorem explicit_external_name_wins_witness :
    tagGet scenarioCField.tag "mapstructure" = some ⟨"mapstructure", "cmd", []⟩ ∧
    ("cmd" : String) ≠ "" ∧
    ctyAccessor scenarioCField = "cmd" ∧
    (addCtyTagToStruct [scenarioCField]).1 =
      [.mk "Command" true (.basic .string)
        [⟨"mapstructure", "cmd", []⟩, ⟨"cty", "cmd", []⟩]] ∧
    ToSnakeCase "Command" = "command" ∧
    ("cmd" : String) ≠ "command" := by
  have h := explicit_external_name_wins scenarioCField ⟨"mapstructure", "cmd", []⟩
    (by decide) (by decide)
  refine ⟨by decide, by decide, h.1, ?_, ?_, by decide⟩
  · rw [h.2]; decide
  · simp [ToSnakeCase, matchFirstCapAux, matchAllCapAux, isAsciiUpper,
      isAsciiLower, isAsciiLowerOrDigit]

theorem flattenStep_squash_nonstruct (f : GoField) (ms : TagEntry)
    (h1 : tagGet f.tag "mapstructure" = some ms)
    (h2 : ms.options.contains "squash" = true)
    (h3 : underlyingIsStruct f.type = false) :
    ∀ (acc : List GoField) (diags : List String),
      flattenStep f acc diags = (acc, diags) := by
  intro acc diags
  obtain ⟨n, ex, t, tg⟩ := f
  simp only [GoField.tag] at h1
  simp only [GoField.type] at h3
  have h2m : "squash" ∈ ms.options := by
    simpa using h2
  cases ex
  · simp [flattenStep, GoField.isExp]
  · cases t with
    | basic k => simp [flattenStep, GoField.isExp, GoField.type, GoField.tag, h1, h2m]
    | pointer e => simp [flattenStep, GoField.isExp, GoField.type, GoField.tag, h1, h2m]
    | slice e => simp [flattenStep, GoField.isExp, GoField.type, GoField.tag, h1, h2m]
    | mapT a b => simp [flattenStep, GoField.isExp, GoField.type, GoField.tag, h1, h2m]
    | signature => simp [flattenStep, GoField.isExp, GoField.type]
    | structT inner => simp [underlyingIsStruct, GoType.underlying] at h3
    | named m u =>
      cases u with
      | structT inner => simp [underlyingIsStruct, GoType.underlying] at h3
      | basic k => simp [flattenStep, GoField.isExp, GoField.type, GoField.tag, h1, h2m]
      | pointer e => simp [flattenStep, GoField.isExp, GoField.type, GoField.tag, h1, h2m]
      | slice e => simp [flattenStep, GoField.isExp, GoField.type, GoField.tag, h1, h2m]
      | mapT a b => simp [flattenStep, GoField.isExp, GoField.type, GoField.tag, h1, h2m]
      | named m2 u2 => simp [flattenStep, GoField.isExp, GoField.type, GoField.tag, h1, h2m]
      | signature => simp [flattenStep, GoField.isExp, GoField.type, GoField.tag, h1, h2m]

theorem flattenAux_append_skip (f : GoField) (ms : TagEntry)
    (h1 : tagGet f.tag "mapstructure" = some ms)
    (h2 : ms.options.contains "squash" = true)
    (h3 : underlyingIsStruct f.type = false) :
    ∀ (pre post : FieldList) (acc : List GoField) (diags : List String),
      flattenAux (pre.append (.fcons f post)) acc diags =
        flattenAux (pre.append post) acc diags
  | .fnil, post, acc, diags => by
    simp only [FieldList.append, flattenAux,
      flattenStep_squash_nonstruct f ms h1 h2 h3]
  | .fcons g rest, post, acc, diags => by
    simp only [FieldList.append, flattenAux]
    exact flattenAux_append_skip f ms h1 h2 h3 rest post _ _

/-- C10: a squash-tagged field whose type's underlying shape is not a
struct is skipped entirely, wherever it occurs in the struct: the flat
schema and the diagnostics are the same as if the field were absent (so the
field contributes nothing, does not itself appear, and no diagnostic is
emitted). -/
theorem squash_nonstruct_silently_skipped :
    ∀ (pre post : FieldList) (f : GoField) (ms : TagEntry),
      tagGet f.tag "mapstructure" = some ms →
      ms.options.contains "squash" = true →
      underlyingIsStruct f.type = false →
      getMapstructureSquashedStruct (pre.append (.fcons f post)) =
        getMapstructureSquashedStruct (pre.append post) := by
  intro pre post f ms h1 h2 h3
  unfold getMapstructureSquashedStruct
  exact flattenAux_append_skip f ms h1 h2 h3 pre post [] []

theorem squash_nonstruct_silently_skipped_witness :
    tagGet [TagEntry.mk "mapstructure" "" ["squash"]] "mapstructure" =
      some ⟨"mapstructure", "", ["squash"]⟩ ∧
    (["squash"].contains "squash") = true ∧
    underlyingIsStruct (.basic .int) = false ∧
    getMapstructureSquashedStruct
      ((FieldList.fcons (.mk "A" true (.basic .string) []) .fnil).append
        (.fcons (.mk "S" true (.basic .int)
          [⟨"mapstructure", "", ["squash"]⟩]) .fnil)) =
      getMapstructureSquashedStruct
        ((FieldList.fcons (.mk "A" true (.basic .string) []) .fnil).append
          .fnil) := by
  refine ⟨by decide, by decide, by decide, ?_⟩
  exact squash_nonstruct_silently_skipped
    (.fcons (.mk "A" true (.basic .string) []) .fnil) .fnil
    (.mk "S" true (.basic .int) [⟨"mapstructure", "", ["squash"]⟩])
    ⟨"mapstructure", "", ["squash"]⟩ (by decide) (by decide) (by decide)

theorem toLower_eq_of_upper (c : Char) (h : 65 ≤ c.toNat ∧ c.toNat ≤ 90) :
    Char.toLower c = Char.ofNat (c.toNat + 32) := by
  simp only [Char.toLower]
  rw [if_pos]
  exact ⟨h.1, h.2⟩

theorem toLower_eq_of_not_upper (c : Char)
    (h : ¬(65 ≤ c.toNat ∧ c.toNat ≤ 90)) :
    Char.toLower c = c := by
  simp only [Char.toLower]
  rw [if_neg]
  exact fun hc => h ⟨hc.1, hc.2⟩

theorem toNat_toLower_of_upper (c : Char) (h : 65 ≤ c.toNat ∧ c.toNat ≤ 90) :
    (Char.toLower c).toNat = c.toNat + 32 := by
  rw [toLower_eq_of_upper c h]
  have hv : (c.toNat + 32).isValidChar := Or.inl (by omega)
  rw [Char.ofNat, dif_pos hv]
  simp [Char.ofNatAux, Char.toNat, UInt32.toNat]

theorem not_upper_iff (c : Char) :
    isAsciiUpper c = false ↔ ¬(65 ≤ c.toNat ∧ c.toNat ≤ 90) := by
  simp [isAsciiUpper]

theorem isAsciiUpper_toLower (c : Char) :
    isAsciiUpper (Char.toLower c) = false := by
  by_cases h : 65 ≤ c.toNat ∧ c.toNat ≤ 90
  · have ht := toNat_toLower_of_upper c h
    rw [not_upper_iff, ht]
    omega
  · rw [toLower_eq_of_not_upper c h, not_upper_iff]
    exact h

theorem not_upper_of_map_toLower (l : List Char) :
    ∀ c ∈ l.map Char.toLower, isAsciiUpper c = false := by
  intro c hc
  obtain ⟨d, _, rfl⟩ := List.mem_map.mp hc
  exact isAsciiUpper_toLower d

theorem matchFirstCapAux_id (l : List Char)
    (h : ∀ c ∈ l, isAsciiUpper c = false) :
    matchFirstCapAux l = l := by
  induction l using matchFirstCapAux.induct with
  | case1 => simp [matchFirstCapAux]
  | case2 => simp [matchFirstCapAux]
  | case3 => simp [matchFirstCapAux]
  | case4 c d e rest hguard ih =>
    exfalso
    have hd := h d (by simp)
    simp [hd] at hguard
  | case5 c d e rest hguard ih =>
    simp_all [matchFirstCapAux]

theorem matchAllCapAux_id (l : List Char)
    (h : ∀ c ∈ l, isAsciiUpper c = false) :
    matchAllCapAux l = l := by
  induction l using matchAllCapAux.induct with
  | case1 c d rest hguard ih =>
    exfalso
    have hd := h d (by simp)
    simp [hd] at hguard
  | case2 c d rest hguard ih =>
    simp_all [matchAllCapAux]
  | case3 l hne =>
    cases l with
    | nil => simp [matchAllCapAux]
    | cons c t =>
      cases t with
      | nil => simp [matchAllCapAux]
      | cons d r => exact absurd rfl (hne c d r)

theorem map_toLower_id (l : List Char)
    (h : ∀ c ∈ l, isAsciiUpper c = false) :
    l.map Char.toLower = l := by
  induction l with
  | nil => rfl
  | cons c t ih =>
    have hc : Char.toLower c = c :=
      toLower_eq_of_not_upper c ((not_upper_iff c).mp (h c (by simp)))
    simp only [List.map_cons, hc, List.cons.injEq, true_and]
    exact ih (fun d hd => h d (by simp [hd]))

/-- C8: the accessor-derivation transform is idempotent: its output
contains no ASCII uppercase letter, so both regex passes and the final
lowering leave it unchanged. -/
theorem toSnakeCase_idempotent :
    ∀ (s : String), ToSnakeCase (ToSnakeCase s) = ToSnakeCase s := by
  intro s
  have hnu := not_upper_of_map_toLower (matchAllCapAux (matchFirstCapAux s.data))
  show String.mk ((matchAllCapAux (matchFirstCapAux
      (String.mk ((matchAllCapAux (matchFirstCapAux s.data)).map
        Char.toLower)).data)).map Char.toLower) = ToSnakeCase s
  rw [show (String.mk ((matchAllCapAux (matchFirstCapAux s.data)).map
      Char.toLower)).data =
      (matchAllCapAux (matchFirstCapAux s.data)).map Char.toLower from rfl]
  rw [matchFirstCapAux_id _ hnu, matchAllCapAux_id _ hnu, map_toLower_id _ hnu]
  rfl

theorem nameNotSeen_cons (x : String) (seen : List String) (g : GoField) :
    ((g.name != x) && nameNotSeen seen g) = nameNotSeen (x :: seen) g := by
  by_cases h1 : g.name = x <;> by_cases h2 : g.name ∈ seen <;>
    simp [nameNotSeen, List.contains_cons, h1, h2]

theorem tagNameNotSeen_cons (tagName x : String) (seen : List String)
    (g : GoField) :
    (tagNameDiffers tagName x g && tagNameNotSeen tagName seen g) =
      tagNameNotSeen tagName (x :: seen) g := by
  cases htg : tagGet g.tag tagName with
  | none => simp [tagNameNotSeen, tagNameDiffers, htg]
  | some h =>
    by_cases h1 : h.name = x <;> by_cases h2 : h.name ∈ seen <;>
      simp [tagNameNotSeen, tagNameDiffers, htg, List.contains_cons, h1, h2]

theorem uniqueFieldsAux_eq_specFirstWins (l : List GoField) :
    ∀ (seen : List String),
      (uniqueFieldsAux l seen).1 =
        specFirstWinsByName (l.filter (nameNotSeen seen)) := by
  induction l with
  | nil => intro seen; simp [uniqueFieldsAux, specFirstWinsByName]
  | cons f rest ih =>
    intro seen
    by_cases hc : seen.contains f.name
    · have hn : nameNotSeen seen f = false := by simp_all [nameNotSeen]
      simp only [uniqueFieldsAux, hc, if_true, List.filter_cons, hn,
        Bool.false_eq_true, if_false]
      exact ih seen
    · have hb : seen.contains f.name = false := by simp_all
      have hn : nameNotSeen seen f = true := by simp_all [nameNotSeen]
      simp only [uniqueFieldsAux, hb, Bool.false_eq_true, if_false,
        List.filter_cons, hn, if_true, specFirstWinsByName]
      rw [ih (f.name :: seen)]
      have hff : List.filter (fun g => g.name != f.name)
          (List.filter (nameNotSeen seen) rest) =
          List.filter (nameNotSeen (f.name :: seen)) rest := by
        rw [List.filter_filter]
        exact List.filter_congr (fun g _ => nameNotSeen_cons f.name seen g)
      rw [hff]

theorem uniqueFieldsAux_length (l : List GoField) :
    ∀ (seen : List String),
      (uniqueFieldsAux l seen).1.length + (uniqueFieldsAux l seen).2.length =
        l.length := by
  induction l with
  | nil => intro seen; simp [uniqueFieldsAux]
  | cons f rest ih =>
    intro seen
    by_cases hc : seen.contains f.name
    · have := ih seen
      simp only [uniqueFieldsAux, hc, if_true, List.length_cons]
      omega
    · have hb : seen.contains f.name = false := by simp_all
      have := ih (f.name :: seen)
      simp only [uniqueFieldsAux, hb, Bool.false_eq_true, if_false,
        List.length_cons]
      omega

theorem mem_specFirstWinsByName (g : GoField) :
    ∀ (l : List GoField), g ∈ specFirstWinsByName l → g ∈ l := by
  intro l
  induction l using specFirstWinsByName.induct with
  | case1 => simp [specFirstWinsByName]
  | case2 f rest ih =>
    intro hg
    simp only [specFirstWinsByName, List.mem_cons] at hg
    rcases hg with rfl | hg
    · simp
    · have := List.mem_of_mem_filter (ih hg)
      simp [this]

theorem specFirstWinsByName_names_nodup :
    ∀ (l : List GoField),
      ((specFirstWinsByName l).map GoField.name).Nodup := by
  intro l
  induction l using specFirstWinsByName.induct with
  | case1 => simp [specFirstWinsByName]
  | case2 f rest ih =>
    simp only [specFirstWinsByName, List.map_cons, List.nodup_cons]
    refine ⟨?_, ih⟩
    intro hmem
    obtain ⟨g, hg, heq⟩ := List.mem_map.mp hmem
    have hfilter := mem_specFirstWinsByName g _ hg
    have := List.of_mem_filter hfilter
    simp [heq] at this

theorem mem_specFirstWinsByTag (tagName : String) (g : GoField) :
    ∀ (l : List GoField), g ∈ specFirstWinsByTag tagName l → g ∈ l := by
  intro l
  induction l using specFirstWinsByTag.induct tagName with
  | case1 => simp [specFirstWinsByTag]
  | case2 f rest h htg ih =>
    intro hg
    rw [specFirstWinsByTag, htg] at hg
    simp only [List.mem_cons] at hg
    rcases hg with rfl | hg
    · simp
    · have := List.mem_of_mem_filter (ih hg)
      simp [this]
  | case3 f rest htg ih =>
    intro hg
    rw [specFirstWinsByTag, htg] at hg
    simp only [List.mem_cons] at hg
    rcases hg with rfl | hg
    · simp
    · simp [ih hg]

theorem accessorsOf_cons_some (tagName : String) (f : GoField)
    (l : List GoField) (h : TagEntry) (htg : tagGet f.tag tagName = some h) :
    accessorsOf tagName (f :: l) = h.name :: accessorsOf tagName l := by
  simp [accessorsOf, htg]

theorem accessorsOf_cons_none (tagName : String) (f : GoField)
    (l : List GoField) (htg : tagGet f.tag tagName = none) :
    accessorsOf tagName (f :: l) = accessorsOf tagName l := by
  simp [accessorsOf, htg]

theorem specFirstWinsByTag_accessors_nodup (tagName : String) :
    ∀ (l : List GoField),
      (accessorsOf tagName (specFirstWinsByTag tagName l)).Nodup := by
  intro l
  induction l using specFirstWinsByTag.induct tagName with
  | case1 => simp [specFirstWinsByTag, accessorsOf]
  | case2 f rest h htg ih =>
    rw [specFirstWinsByTag, htg, accessorsOf_cons_some tagName f _ h htg,
      List.nodup_cons]
    refine ⟨?_, ih⟩
    intro hmem
    simp only [accessorsOf, List.mem_filterMap] at hmem
    obtain ⟨g, hg, hge⟩ := hmem
    cases htg2 : tagGet g.tag tagName with
    | none => rw [htg2] at hge; simp at hge
    | some e =>
      rw [htg2] at hge
      have hname : e.name = h.name := by simpa using hge
      have hfilter := mem_specFirstWinsByTag tagName g _ hg
      have hdiff := List.of_mem_filter hfilter
      rw [tagNameDiffers, htg2] at hdiff
      simp [hname] at hdiff
  | case3 f rest htg ih =>
    rw [specFirstWinsByTag, htg, accessorsOf_cons_none tagName f _ htg]
    exact ih

theorem uniqueTagsAux_eq_specFirstWins (tagName : String) (l : List GoField) :
    ∀ (seen : List String),
      (uniqueTagsAux tagName l seen).1 =
        specFirstWinsByTag tagName (l.filter (tagNameNotSeen tagName seen)) := by
  induction l with
  | nil => intro seen; simp [uniqueTagsAux, specFirstWinsByTag]
  | cons f rest ih =>
    intro seen
    cases htg : tagGet f.tag tagName with
    | none =>
      have hn : tagNameNotSeen tagName seen f = true := by
        simp [tagNameNotSeen, htg]
      simp only [uniqueTagsAux, htg, List.filter_cons, hn, if_true]
      rw [specFirstWinsByTag, htg, ih seen]
    | some h =>
      by_cases hc : seen.contains h.name
      · have hn : tagNameNotSeen tagName seen f = false := by
          simp_all [tagNameNotSeen, htg]
        simp only [uniqueTagsAux, htg, hc, if_true, List.filter_cons, hn,
          Bool.false_eq_true, if_false]
        exact ih seen
      · have hb : seen.contains h.name = false := by simp_all
        have hn : tagNameNotSeen tagName seen f = true := by
          simp_all [tagNameNotSeen, htg]
        simp only [uniqueTagsAux, htg, hb, Bool.false_eq_true, if_false,
          List.filter_cons, hn, if_true]
        rw [specFirstWinsByTag, htg, ih (h.name :: seen)]
        simp only [List.filter_filter]
        have hff : List.filter
            (fun a => tagNameDiffers tagName h.name a &&
              tagNameNotSeen tagName seen a) rest =
            List.filter (tagNameNotSeen tagName (h.name :: seen)) rest :=
          List.filter_congr
            (fun g _ => tagNameNotSeen_cons tagName h.name seen g)
        rw [hff]

theorem uniqueTagsAux_length (tagName : String) (l : List GoField) :
    ∀ (seen : List String),
      (uniqueTagsAux tagName l seen).1.length +
        (uniqueTagsAux tagName l seen).2.length = l.length := by
  induction l with
  | nil => intro seen; simp [uniqueTagsAux]
  | cons f rest ih =>
    intro seen
    cases htg : tagGet f.tag tagName with
    | none =>
      have := ih seen
      simp only [uniqueTagsAux, htg, List.length_cons]
      omega
    | some h =>
      by_cases hc : seen.contains h.name
      · have := ih seen
        simp only [uniqueTagsAux, htg, hc, if_true, List.length_cons]
        omega
      · have hb : seen.contains h.name = false := by simp_all
        have := ih (h.name :: seen)
        simp only [uniqueTagsAux, htg, hb, Bool.false_eq_true, if_false,
          List.length_cons]
        omega

/-- C2: both deduplication passes keep exactly the first field to claim a
given name (respectively accessor in the `tagName` tag) in scan order and
drop every later claimant (`uniqueFields` and `uniqueTags` coincide with
the keep-first functions stated from the specification), the surviving
names respectively accessors are pairwise distinct, and each dropped field
is reported by exactly one non-fatal diagnostic (kept plus diagnosed counts
add up to the input count) while generation continues. -/
theorem uniqueness_invariants :
    ∀ (fields : List GoField),
      (uniqueFields fields).1 = specFirstWinsByName fields ∧
      ((uniqueFields fields).1.map GoField.name).Nodup ∧
      (uniqueFields fields).1.length + (uniqueFields fields).2.length =
        fields.length ∧
      ∀ (tagName : String),
        (uniqueTags tagName fields).1 = specFirstWinsByTag tagName fields ∧
        (accessorsOf tagName (uniqueTags tagName fields).1).Nodup ∧
        (uniqueTags tagName fields).1.length +
          (uniqueTags tagName fields).2.length = fields.length := by
  intro fields
  have hfe : fields.filter (nameNotSeen []) = fields :=
    List.filter_eq_self.mpr (fun a _ => by simp [nameNotSeen])
  have h1 : (uniqueFields fields).1 = specFirstWinsByName fields := by
    rw [uniqueFields, uniqueFieldsAux_eq_specFirstWins fields [], hfe]
  refine ⟨h1, ?_, ?_, ?_⟩
  · rw [h1]
    exact specFirstWinsByName_names_nodup fields
  · exact uniqueFieldsAux_length fields []
  · intro tagName
    have hfe2 : fields.filter (tagNameNotSeen tagName []) = fields :=
      List.filter_eq_self.mpr (fun a _ => by
        cases htg : tagGet a.tag tagName <;> simp [tagNameNotSeen, htg])
    have h2 : (uniqueTags tagName fields).1 =
        specFirstWinsByTag tagName fields := by
      rw [uniqueTags, uniqueTagsAux_eq_specFirstWins tagName fields [], hfe2]
    refine ⟨h2, ?_, ?_⟩
    · rw [h2]
      exact specFirstWinsByTag_accessors_nodup tagName fields
    · exact uniqueTagsAux_length tagName fields []
